import Mathlib

/-!
Verification development for the Debugforce log classification and
report-synthesis core.

The TypeScript sources are shallowly embedded:
JavaScript strings are modelled as `List Char` (lists of Unicode scalar
values; this is exact for all content in the Basic Multilingual Plane,
where one JS UTF-16 code unit corresponds to one scalar).  File-system
and process I/O performed by the orchestration layer is replaced by
explicit parameters: the multi-log analyzer receives its
(filename, content) pairs directly, and the packet generator receives the
render-time timestamp as an argument.
-/

namespace Debugforce

/-- JavaScript string value: a list of Unicode scalars. -/
abbrev JSStr := List Char

/-- Whitespace recognised by JavaScript `String.prototype.trim` and the
regex class `\s`, restricted to the characters that can occur in the
logs handled here (ASCII whitespace, NBSP, LS, PS, BOM). -/
def isWs (c : Char) : Bool :=
  c == ' ' || c == '\t' || c == '\n' || c == '\r' ||
  c == Char.ofNat 11 || c == Char.ofNat 12 || c == Char.ofNat 160 ||
  c == Char.ofNat 0x2028 || c == Char.ofNat 0x2029 || c == Char.ofNat 0xFEFF

/-- JavaScript line terminators (the characters the regex `.` does not match). -/
def isLineTerm (c : Char) : Bool :=
  c == '\n' || c == '\r' || c == Char.ofNat 0x2028 || c == Char.ofNat 0x2029

/-- JavaScript `line.trim()`: strip leading and trailing whitespace. -/
def jsTrim (s : JSStr) : JSStr :=
  ((s.dropWhile isWs).reverse.dropWhile isWs).reverse

/-- Decides whether `tok` is a prefix of `s` (helper for substring search). -/
def startsSeg : JSStr → JSStr → Bool
  | [], _ => true
  | _ :: _, [] => false
  | c :: ts, d :: ss => c == d && startsSeg ts ss

/-- JavaScript `s.includes(tok)`: `tok` occurs as a contiguous segment of `s`. -/
def containsSeg : JSStr → JSStr → Bool
  | [], tok => startsSeg tok []
  | c :: t, tok => startsSeg tok (c :: t) || containsSeg t tok

/-- JavaScript `content.split('\n')`. -/
def splitLines : JSStr → List JSStr
  | [] => [[]]
  | c :: t =>
    if c = '\n' then [] :: splitLines t
    else
      match splitLines t with
      | [] => [[c]]
      | l :: ls => (c :: l) :: ls

/-- JavaScript `lines.join('\n')` (inverse of `splitLines`). -/
def joinLines : List JSStr → JSStr
  | [] => []
  | [l] => l
  | l :: ls => l ++ '\n' :: joinLines ls

/-- JavaScript `parts.join(', ')`. -/
def joinComma : List JSStr → JSStr
  | [] => []
  | [p] => p
  | p :: ps => p ++ ", ".data ++ joinComma ps

/-- JavaScript `arr.slice(0, e)`: a negative end index counts from the end
of the array, clamped at zero. -/
def jsSliceTo {α : Type} (l : List α) (e : Int) : List α :=
  if e < 0 then l.take ((l.length + e).toNat) else l.take e.toNat

/-- JavaScript `s.substring(0, e)`: takes the first `e` code units
(a negative or overlong index is clamped). -/
def jsSubstringTo (s : JSStr) (e : Int) : JSStr :=
  s.take e.toNat

/-- Number of bytes of the UTF-8 encoding of one scalar. -/
def utf8CharLen (c : Char) : Nat :=
  if c.toNat < 0x80 then 1
  else if c.toNat < 0x800 then 2
  else if c.toNat < 0x10000 then 3
  else 4

/-- Node `Buffer.byteLength(s, 'utf8')`: UTF-8 byte length of the string. -/
def utf8ByteLength (s : JSStr) : Nat :=
  (s.map utf8CharLen).sum

namespace LogParser

/-- Error-tier tokens of `extractKeyLines` (src/logParser.ts). -/
def errorTokens : List JSStr :=
  ["EXCEPTION_THROWN".data, "FATAL_ERROR".data, "UNHANDLED_EXCEPTION".data,
   "SYSTEM_MODE_ENTER".data, "FLOW_ELEMENT_ERROR".data, "FLOW_ELEMENT_FAULT".data,
   "FLOW_CREATE_INTERVIEW_ERROR".data]

/-- Informational-tier tokens of `extractKeyLines` (src/logParser.ts). -/
def infoTokens : List JSStr :=
  ["LIMIT_USAGE".data, "MAXIMUM_LIMIT_USAGE".data, "SOQL_EXECUTE_BEGIN".data,
   "DML_BEGIN".data, "FLOW_START_INTERVIEW".data, "FLOW_INTERVIEW_FINISHED".data,
   "CALLOUT_REQUEST".data, "CODE_UNIT_STARTED".data, "CODE_UNIT_FINISHED".data,
   "EXECUTION_STARTED".data, "EXECUTION_FINISHED".data]

/-- JavaScript `tokens.some(token => line.includes(token))`. -/
def matchesAny (tokens : List JSStr) (line : JSStr) : Bool :=
  tokens.any fun t => containsSeg line t

/-- Loop state of `extractKeyLines`: the two output lists and the
deduplication set (`seen`, modelled as the list of strings added so far). -/
structure ExtractSt where
  errorLines : List JSStr
  infoLines : List JSStr
  seen : List JSStr

/-- One iteration of the `for (const line of lines)` loop of
`extractKeyLines` (src/logParser.ts lines 36-56). -/
def extractStep (maxLines : Int) (st : ExtractSt) (line : JSStr) : ExtractSt :=
  let trimmed := jsTrim line
  if trimmed = [] ∨ trimmed ∈ st.seen then st
  else if matchesAny errorTokens line then
    { st with errorLines := st.errorLines ++ [trimmed], seen := st.seen ++ [trimmed] }
  else if matchesAny infoTokens line ∧ (st.infoLines.length : Int) < maxLines then
    { st with infoLines := st.infoLines ++ [trimmed], seen := st.seen ++ [trimmed] }
  else st

/-- The final loop state of `extractKeyLines` on `content`. -/
def extractRun (content : JSStr) (maxLines : Int) : ExtractSt :=
  (splitLines content).foldl (extractStep maxLines) ⟨[], [], []⟩

/-- Embedding of `extractKeyLines(logContent, maxLines = 300)`
(src/logParser.ts lines 5-61): errors first, then info, combined list
cut by `combined.slice(0, maxLines)`. -/
def extractKeyLines (content : JSStr) (maxLines : Int) : List JSStr :=
  let st := extractRun content maxLines
  jsSliceTo (st.errorLines ++ st.infoLines) maxLines

/-- The source performs no parameter validation and its body contains no
throw site; the `Except` layer makes the (absent) error channel of the
JavaScript function explicit. -/
def extractKeyLinesE (content : JSStr) (maxLines : Int) : Except JSStr (List JSStr) :=
  Except.ok (extractKeyLines content maxLines)

/-- Indicator token list of the fast predicate `hasErrors`
(src/logParser.ts lines 66-81). -/
def errorIndicators : List JSStr :=
  ["EXCEPTION_THROWN".data, "FATAL_ERROR".data, "UNHANDLED_EXCEPTION".data,
   "FLOW_ELEMENT_ERROR".data, "FLOW_ELEMENT_FAULT".data,
   "FLOW_CREATE_INTERVIEW_ERROR".data, "System.LimitException".data,
   "System.QueryException".data, "System.DmlException".data,
   "System.NullPointerException".data]

/-- Embedding of the fast predicate `hasErrors(logContent)`
(src/logParser.ts): scans the whole content for any indicator substring. -/
def hasErrors (content : JSStr) : Bool :=
  errorIndicators.any fun t => containsSeg content t

end LogParser

namespace Mcp

/-- Result record of `analyzeLogContent` (debugforce-mcp/src/index.ts
lines 15-24; identical interface in the local analyzer). -/
structure LogAnalysis where
  filename : JSStr
  hasErrors : Bool
  exceptions : List JSStr
  fatalErrors : List JSStr
  limitIssues : List JSStr
  flowErrors : List JSStr
  validationErrors : List JSStr
  summary : JSStr

/-- Trigger of the exceptions bucket. -/
def isExceptionLine (line : JSStr) : Bool :=
  containsSeg line "EXCEPTION_THROWN".data || containsSeg line "UNHANDLED_EXCEPTION".data

/-- Trigger of the fatal-errors bucket. -/
def isFatalLine (line : JSStr) : Bool :=
  containsSeg line "FATAL_ERROR".data || containsSeg line "System.".data

/-- Trigger of the flow-errors bucket. -/
def isFlowLine (line : JSStr) : Bool :=
  containsSeg line "FLOW_ELEMENT_ERROR".data || containsSeg line "FLOW_ELEMENT_FAULT".data ||
  containsSeg line "FLOW_CREATE_INTERVIEW_ERROR".data

/-- Trigger of the validation-errors bucket. -/
def isValidationLine (line : JSStr) : Bool :=
  containsSeg line "VALIDATION_FAIL".data || containsSeg line "VALIDATION_ERROR".data

/-- Part of the regex `/LIMIT_USAGE.*?\|(.+)/`: after the literal
`LIMIT_USAGE`, the lazy gap `.*?` walks over non-terminator characters to
a `|`, and the group `.+` greedily takes at least one non-terminator
character; on failure the engine backtracks to the next `|`. -/
def scanPipe : JSStr → Option JSStr
  | [] => none
  | '|' :: t =>
    let g := t.takeWhile fun c => !isLineTerm c
    if g = [] then scanPipe t else some g
  | c :: t => if isLineTerm c then none else scanPipe t

/-- JavaScript `line.match(/LIMIT_USAGE.*?\|(.+)/)`, returning the first
capture group: tries each start position left to right. -/
def limitRegexMatch : JSStr → Option JSStr
  | [] => none
  | c :: t =>
    if startsSeg "LIMIT_USAGE".data (c :: t) then
      match scanPipe ((c :: t).drop "LIMIT_USAGE".data.length) with
      | some g => some g
      | none => limitRegexMatch t
    else limitRegexMatch t

/-- Exact integer value of the decimal digit string captured by `\d+`.
JavaScript `parseInt` then converts this integer to a binary64 number,
rounding it when it exceeds 2^53; that rounding is modelled separately by
`jsParseIntNat`. -/
def digitsVal (ds : JSStr) : Nat :=
  ds.foldl (fun n c => n * 10 + (c.toNat - 48)) 0

/-- A nonnegative JavaScript number (IEEE-754 binary64): NaN, +Infinity,
or a finite value `m * 2^e`.  Every number arising in the limit check
(`parseInt` results and their quotient) is nonnegative, so the sign is
omitted. -/
inductive JsNum where
  | nan : JsNum
  | inf : JsNum
  | fin : Nat → Int → JsNum

/-- Floor of the base-two logarithm, by repeated halving; the first
argument is fuel, always sufficient when it is the number itself. -/
def log2Fuel : Nat → Nat → Nat
  | 0, _ => 0
  | f + 1, n => if n ≤ 1 then 0 else log2Fuel f (n / 2) + 1

/-- Floor of the base-two logarithm of a positive natural. -/
def natLog2 (n : Nat) : Nat := log2Fuel n n

/-- Decides `2^d ≤ p / q` over the exact rationals. -/
def ratGe (p q : Nat) (d : Int) : Bool :=
  if 0 ≤ d then decide (q * 2 ^ d.toNat ≤ p) else decide (q ≤ p * 2 ^ (-d).toNat)

/-- The integer `e` with `2^e ≤ p/q < 2^(e+1)`, for positive `p`, `q`. -/
def ilog2Rat (p q : Nat) : Int :=
  let d : Int := (natLog2 p : Int) - (natLog2 q : Int)
  if ratGe p q (d + 1) then d + 1 else if ratGe p q d then d else d - 1

/-- Rounds the exact quotient `n / d` to the nearest integer, ties to
even. -/
def roundHalfEven (n d : Nat) : Nat :=
  let s0 := n / d
  let r := n % d
  if d < 2 * r then s0 + 1 else if 2 * r < d then s0 else s0 + s0 % 2

/-- Rounds `p/q * 2^t` to the nearest integer, ties to even. -/
def scaleDiv (p q : Nat) (t : Int) : Nat :=
  if 0 ≤ t then roundHalfEven (p * 2 ^ t.toNat) q else roundHalfEven p (q * 2 ^ (-t).toNat)

/-- The binary64 number nearest to the exact rational `p / q` (`q > 0`),
round to nearest, ties to even: overflow to +Infinity above the largest
finite double, gradual underflow to subnormals (spacing `2^-1074`) below
`2^-1022`. -/
def roundRat (p q : Nat) : JsNum :=
  if p = 0 then JsNum.fin 0 0
  else
    let e := ilog2Rat p q
    if e < -1022 then JsNum.fin (scaleDiv p q 1074) (-1074)
    else if 1023 < e then JsNum.inf
    else
      let s := scaleDiv p q (52 - e)
      if s = 2 ^ 53 then
        if e = 1023 then JsNum.inf else JsNum.fin (2 ^ 52) (e - 51)
      else JsNum.fin s (e - 52)

/-- JavaScript `parseInt` on a digit string with exact integer value `v`:
the binary64 number nearest to `v` (exact below 2^53, +Infinity above the
largest finite double). -/
def jsParseIntNat (v : Nat) : JsNum := roundRat v 1

/-- JavaScript division of nonnegative binary64 numbers: the exact
quotient rounded to the nearest double, with `x/0 = Infinity` for
`x > 0`, `0/0 = NaN`, and NaN propagation. -/
def jsDiv : JsNum → JsNum → JsNum
  | JsNum.nan, _ => JsNum.nan
  | _, JsNum.nan => JsNum.nan
  | JsNum.inf, JsNum.inf => JsNum.nan
  | JsNum.inf, JsNum.fin _ _ => JsNum.inf
  | JsNum.fin _ _, JsNum.inf => JsNum.fin 0 0
  | JsNum.fin a x, JsNum.fin b y =>
    if b = 0 then (if a = 0 then JsNum.nan else JsNum.inf)
    else if a = 0 then JsNum.fin 0 0
    else
      let sh := x - y
      if 0 ≤ sh then roundRat (a * 2 ^ sh.toNat) b else roundRat a (b * 2 ^ (-sh).toNat)

/-- JavaScript `>` on nonnegative binary64 numbers (false whenever an
operand is NaN). -/
def jsGt : JsNum → JsNum → Bool
  | JsNum.nan, _ => false
  | _, JsNum.nan => false
  | JsNum.inf, JsNum.inf => false
  | JsNum.inf, JsNum.fin _ _ => true
  | JsNum.fin _ _, JsNum.inf => false
  | JsNum.fin a x, JsNum.fin b y =>
    let sh := x - y
    if 0 ≤ sh then decide (b < a * 2 ^ sh.toNat) else decide (b * 2 ^ (-sh).toNat < a)

/-- The binary64 value of the JavaScript literal `0.8`:
`3602879701896397 * 2^-52`, slightly above the rational 4/5. -/
def pointEight : JsNum := roundRat 4 5

/-- Anchored attempt of the regex `/(\d+)\s*out of\s*(\d+)/` at the start
of `s`.  The greedy `\d+` is equivalent to the maximal digit run: giving
back digits can never help, because the following atom accepts only
whitespace or the letter o, never a digit. -/
def tryUsedMax (s : JSStr) : Option (Nat × Nat) :=
  let ds := s.takeWhile Char.isDigit
  if ds = [] then none
  else
    let r2 := (s.dropWhile Char.isDigit).dropWhile isWs
    if startsSeg "out of".data r2 then
      let r3 := (r2.drop "out of".data.length).dropWhile isWs
      let ds2 := r3.takeWhile Char.isDigit
      if ds2 = [] then none else some (digitsVal ds, digitsVal ds2)
    else none

/-- JavaScript `rest.match(/(\d+)\s*out of\s*(\d+)/)`: first match,
scanning start positions left to right. -/
def findUsedMax : JSStr → Option (Nat × Nat)
  | [] => none
  | c :: t =>
    match tryUsedMax (c :: t) with
    | some r => some r
    | none => findUsedMax t

/-- Trigger of the limit-issues bucket (index.ts lines 48-61): a
limit-usage line whose pipe-delimited rest parses as used out of max with
`used / max > 0.8`.  The comparison is carried out in JavaScript number
arithmetic: both captures are converted by `parseInt` (binary64 rounding
above 2^53), divided as binary64 (round to nearest, ties to even;
`x/0 = Infinity`, `0/0 = NaN`), and compared against the binary64 value
of the literal `0.8`. -/
def isLimitLine (line : JSStr) : Bool :=
  (containsSeg line "LIMIT_USAGE".data || containsSeg line "MAXIMUM_LIMIT_USAGE".data) &&
  (match limitRegexMatch line with
   | none => false
   | some rest =>
     match findUsedMax rest with
     | none => false
     | some (u, m) => jsGt (jsDiv (jsParseIntNat u) (jsParseIntNat m)) pointEight)

/-- Initial value of the `analysis` record. -/
def initAnalysis (filename : JSStr) : LogAnalysis :=
  ⟨filename, false, [], [], [], [], [], []⟩

/-- One iteration of the `for (const line of lines)` loop of
`analyzeLogContent`: the five category checks are independent, each
appends the trimmed line to its bucket and sets `hasErrors`. -/
def analyzeLine (a : LogAnalysis) (line : JSStr) : LogAnalysis :=
  let t := jsTrim line
  let a1 := if isExceptionLine line then
    { a with exceptions := a.exceptions ++ [t], hasErrors := true } else a
  let a2 := if isFatalLine line then
    { a1 with fatalErrors := a1.fatalErrors ++ [t], hasErrors := true } else a1
  let a3 := if isLimitLine line then
    { a2 with limitIssues := a2.limitIssues ++ [t], hasErrors := true } else a2
  let a4 := if isFlowLine line then
    { a3 with flowErrors := a3.flowErrors ++ [t], hasErrors := true } else a3
  if isValidationLine line then
    { a4 with validationErrors := a4.validationErrors ++ [t], hasErrors := true } else a4

/-- The `parts` list of the summary builder: one `"<n> <label>(s)"`
fragment per non-empty bucket, in bucket order. -/
def summaryParts (a : LogAnalysis) : List JSStr :=
  (if a.exceptions.length > 0 then
    [(toString a.exceptions.length).data ++ " exception(s)".data] else []) ++
  (if a.fatalErrors.length > 0 then
    [(toString a.fatalErrors.length).data ++ " fatal error(s)".data] else []) ++
  (if a.limitIssues.length > 0 then
    [(toString a.limitIssues.length).data ++ " limit warning(s)".data] else []) ++
  (if a.flowErrors.length > 0 then
    [(toString a.flowErrors.length).data ++ " flow error(s)".data] else []) ++
  (if a.validationErrors.length > 0 then
    [(toString a.validationErrors.length).data ++ " validation error(s)".data] else [])

/-- Embedding of `analyzeLogContent(filename, content)`
(debugforce-mcp/src/index.ts lines 26-88; the local analyzer in the
unnamed module is the same computation up to an immaterial extra trim of
the regex capture). -/
def analyzeLogContent (filename content : JSStr) : LogAnalysis :=
  let a := (splitLines content).foldl analyzeLine (initAnalysis filename)
  if a.hasErrors then { a with summary := joinComma (summaryParts a) } else a

/-- Message returned when the logs folder holds no `.log` files. -/
def noLogFilesMsg : JSStr :=
  "📂 No log files found. Use the Debugforce extension to fetch logs.".data

/-- Message returned when none of the `n` analyzed logs has errors. -/
def noErrorsMsg (n : Nat) : JSStr :=
  "✅ **No errors detected in any of the ".data ++ (toString n).data ++
  " analyzed log(s).**\n\nAll logs appear to be clean.".data

/-- Header block of the aggregate report for `n` logs of which `m` have
errors. -/
def reportHeader (n m : Nat) : JSStr :=
  "# 🔍 Debugforce Log Analysis Report\n\n".data ++
  ("**Total Logs Analyzed**: ".data ++ (toString n).data ++ "\n".data) ++
  ("**Logs with Errors**: ".data ++ (toString m).data ++ "\n".data) ++
  ("**Clean Logs**: ".data ++ (toString (n - m)).data ++ "\n".data) ++
  "\n---\n\n".data

/-- The numbered per-log section of the aggregate report (index.ts lines
126-147); `i` is the zero-based loop index. -/
def renderSection (i : Nat) (a : LogAnalysis) : JSStr :=
  "## Log ".data ++ (toString (i + 1)).data ++ ": ".data ++ a.filename ++
  "\n\n**Summary**: ".data ++ a.summary ++ "\n\n".data ++
  (if a.exceptions.length > 0 then
    "### 🚨 Exceptions\n```\n".data ++ joinLines (a.exceptions.take 5) ++ "\n```\n\n".data
   else []) ++
  (if a.fatalErrors.length > 0 then
    "### ❌ Fatal Errors\n```\n".data ++ joinLines (a.fatalErrors.take 5) ++ "\n```\n\n".data
   else []) ++
  (if a.limitIssues.length > 0 then
    "### ⚠️ Limit Warnings\n```\n".data ++ joinLines (a.limitIssues.take 3) ++ "\n```\n\n".data
   else []) ++
  (if a.flowErrors.length > 0 then
    "### 🌊 Flow Errors\n```\n".data ++ joinLines (a.flowErrors.take 3) ++ "\n```\n\n".data
   else []) ++
  (if a.validationErrors.length > 0 then
    "### 📋 Validation Errors\n```\n".data ++ joinLines (a.validationErrors.take 5) ++ "\n```\n\n".data
   else []) ++
  "### 💡 Next Steps\n- Review the full log: `.debugforce/logs/".data ++ a.filename ++
  "`\n- Fix root causes in your Apex/Flow/validation code\n- Re-fetch logs after changes to verify fixes\n\n---\n\n".data

/-- The numbered sections as a list, starting at loop index `i`. -/
def sectionsList : Nat → List LogAnalysis → List JSStr
  | _, [] => []
  | i, a :: rest => renderSection i a :: sectionsList (i + 1) rest

/-- The analyses retained by the aggregator: one per input log, keeping
only those with errors. -/
def analysesOf (logs : List (JSStr × JSStr)) : List LogAnalysis :=
  (logs.map fun p => analyzeLogContent p.1 p.2).filter fun a => a.hasErrors

/-- Embedding of the report logic of `analyzeLogsInFolder`
(debugforce-mcp/src/index.ts lines 90-151), with the file system replaced
by the caller-supplied ordered (filename, content) pairs and every read
assumed to succeed.  The same three-state shape (no files / all clean /
error report) appears in the local `analyzeLogsLocally`. -/
def analyzeLogsReport (logs : List (JSStr × JSStr)) : JSStr :=
  if logs.length = 0 then noLogFilesMsg
  else
    let analyses := analysesOf logs
    if analyses.length = 0 then noErrorsMsg logs.length
    else reportHeader logs.length analyses.length ++ (sectionsList 0 analyses).flatten

end Mcp

namespace Markdown

/-- User identity consumed by the packet header (sfCli.ts).  The optional
`orgAlias` is modelled as a plain string, the empty string standing for
an absent or empty value (both are falsy in `orgAlias || 'N/A'`). -/
structure OrgUserInfo where
  userId : JSStr
  username : JSStr
  orgAlias : JSStr

/-- Options record of the packet generator (src/markdown.ts lines 70-77). -/
structure AnalysisPacketOptions where
  userInfo : OrgUserInfo
  logId : JSStr
  timeWindowMinutes : Int
  logContent : JSStr
  outputFolder : JSStr
  truncateRawLogBytes : Int

/-- The fixed `AGENTFORCE_ANALYSIS_PROMPT` instruction block
(src/markdown.ts lines 12-68), verbatim. -/
def analysisPrompt : JSStr :=
  "You are an expert Salesforce log analyst.

Task:
1) Recursively scan all text files under: .debugforce/logs
2) Detect and classify Salesforce error types and error signals, then produce a summary report.

Primary error tokens to detect (exact match + case-insensitive match):
- WF_FLOW_ACTION_ERROR
- WF_FLOW_ACTION_ERROR_DETAIL
- FLOW_CREATE_INTERVIEW_ERROR
- FLOW_START_INTERVIEWS_ERROR
- FLOW_ELEMENT_FAULT
- FLOW_ELEMENT_ERROR
- INVOCABLE_ACTION_ERROR
- VALIDATION_FAIL
- VALIDATION_ERROR
- XDS_RESPONSE_ERROR
- EXCEPTION_THROWN
- FATAL_ERROR
- USER_DEBUG_ERROR
- APP_ANALYTICS_ERROR
- TEMPLATE_PROCESSING_ERROR
- NBA_STRATEGY_ERROR
- NBA_NODE_ERROR
- PUSH_NOTIFICATION_INVALID_CERTIFICATE
- PUSH_NOTIFICATION_INVALID_APP
- PUSH_NOTIFICATION_INVALID_NOTIFICATION

Also detect general Salesforce error patterns:
- \"System.\" exceptions (e.g., System.DmlException, System.NullPointerException, System.CalloutException, System.QueryException)
- \"FATAL_ERROR\"
- \"EXCEPTION_THROWN\"
- Lines containing: \"error\", \"exception\", \"fail\", \"fault\", \"invalid\" (case-insensitive)
- Governor limit failures (e.g., \"Too many SOQL queries\", \"Apex CPU time limit exceeded\", \"Heap size too large\", \"Too many DML statements\")

For each detected error instance, capture:
- file path
- timestamp (if present)
- user / request id / transaction id / correlation id (if present)
- the error type (best label)
- the specific exception message line
- the 10 lines before and 10 lines after (context window)

Output:
A) Executive summary: total files scanned, total errors found, unique error types, top 5 most frequent.
B) A table grouped by error type:
   - count
   - top 3 example messages
   - top files where it happens
C) \"Most likely root causes\" section (brief) for each top error type.
D) Actionable next steps: what to check in code/config, and what extra log categories/levels would help.

Rules:
- Do not hallucinate details that aren't in the logs.
- If a file looks binary or unreadable, skip it and note it.
- Prefer exact event tokens when present; otherwise fall back to exception class/message patterns.
".data

/-- The truncation notice rendered when the raw log was cut. -/
def truncationNotice : JSStr :=
  "> **Note**: Raw log truncated due to size.\n\n".data

/-- The `isTruncated` flag of `generateAnalysisContent`:
`Buffer.byteLength(logContent, 'utf8') > truncateRawLogBytes`. -/
def isTruncatedFlag (o : AnalysisPacketOptions) : Bool :=
  decide ((utf8ByteLength o.logContent : Int) > o.truncateRawLogBytes)

/-- The `rawLogContent` constant of `generateAnalysisContent`:
`logContent.substring(0, truncateRawLogBytes)` when truncated —
note that `substring` counts code units, not UTF-8 bytes. -/
def rawLogContent (o : AnalysisPacketOptions) : JSStr :=
  if isTruncatedFlag o then jsSubstringTo o.logContent o.truncateRawLogBytes
  else o.logContent

/-- Everything of the rendered packet before the optional truncation
notice: metadata header, fixed prompt, key extracts, raw-log heading.
`downloadTimestamp` is the render-time `new Date().toISOString()`,
passed explicitly. -/
def packetHead (o : AnalysisPacketOptions) (downloadTimestamp : JSStr) : JSStr :=
  "# Debugforce Analysis Packet\n\n## Header\n\n- **Org Alias**: ".data ++
  (if o.userInfo.orgAlias = [] then "N/A".data else o.userInfo.orgAlias) ++
  "\n- **Username**: ".data ++ o.userInfo.username ++
  "\n- **SFCLILoggedInUserId**: ".data ++ o.userInfo.userId ++
  "\n- **Time Window Minutes**: ".data ++ (toString o.timeWindowMinutes).data ++
  "\n- **Log Id**: ".data ++ o.logId ++
  "\n- **Download Timestamp (UTC)**: ".data ++ downloadTimestamp ++
  "\n- **Raw Log File**: .debugforce/logs/".data ++ o.logId ++
  ".log\n\n---\n\n## 🤖 Cursor AI Prompt\n\n".data ++ analysisPrompt ++
  "\n\n---\n\n## Key Extracts\n\n```\n".data ++
  joinLines (LogParser.extractKeyLines o.logContent 300) ++
  "\n```\n\n---\n\n## Raw Log\n\n".data

/-- Embedding of `generateAnalysisContent(options)` (src/markdown.ts
lines 82-135): the full rendered analysis packet. -/
def generateAnalysisContent (o : AnalysisPacketOptions) (downloadTimestamp : JSStr) : JSStr :=
  packetHead o downloadTimestamp ++
  (if isTruncatedFlag o then truncationNotice else []) ++
  "```\n".data ++ rawLogContent o ++ "\n```\n".data

/-- The source performs no parameter validation and its body contains no
throw site; the `Except` layer makes the (absent) error channel explicit. -/
def generateAnalysisContentE (o : AnalysisPacketOptions) (downloadTimestamp : JSStr) :
    Except JSStr JSStr :=
  Except.ok (generateAnalysisContent o downloadTimestamp)

end Markdown

/-- Packet options exercising the truncation boundary with two-byte
characters: the content é é has four UTF-8 bytes (two code units) against
a three-byte budget. -/
def twoByteOpts : Markdown.AnalysisPacketOptions :=
  ⟨⟨"u1".data, "user@example.com".data, []⟩, "07L000001".data, 30, "éé".data,
    ".debugforce/analysis".data, 3⟩

/-- Packet options with a zero byte budget and nonempty content. -/
def zeroBudgetOpts : Markdown.AnalysisPacketOptions :=
  ⟨⟨"u1".data, "user@example.com".data, []⟩, "07L000002".data, 30, "x".data,
    ".debugforce/analysis".data, 0⟩

/-- A fixed render timestamp used by the concrete examples. -/
def exampleTimestamp : JSStr := "2026-02-10T00:00:00.000Z".data

/-- A log line matching both the exceptions trigger (EXCEPTION_THROWN)
and the fatal-errors trigger (System.). -/
def exampleDualLine : JSStr := "x System.NullPointerException EXCEPTION_THROWN y".data

/-- Invariant of the `extractKeyLines` loop after processing the lines in
`processed`: the dedupe set is exactly the union of the two output lists,
the combined output is duplicate-free, every stored error line matches an
error token, every stored info line matches an info token and no error
token, and every processed line whose trim matches an error token has
been stored in the error list. -/
structure ExtractInv (processed : List JSStr) (st : LogParser.ExtractSt) : Prop where
  seen_iff : ∀ x : JSStr, x ∈ st.seen ↔ x ∈ st.errorLines ∨ x ∈ st.infoLines
  nodup : (st.errorLines ++ st.infoLines).Nodup
  err_match : ∀ x ∈ st.errorLines, LogParser.matchesAny LogParser.errorTokens x = true
  info_match : ∀ x ∈ st.infoLines,
    LogParser.matchesAny LogParser.errorTokens x = false ∧
    LogParser.matchesAny LogParser.infoTokens x = true
  err_complete : ∀ l ∈ processed,
    LogParser.matchesAny LogParser.errorTokens (jsTrim l) = true → jsTrim l ∈ st.errorLines

/-- The prefix checker decides the prefix relation. -/
theorem startsSeg_iff (tok s : JSStr) : startsSeg tok s = true ↔ tok <+: s := by
  induction tok generalizing s with
  | nil => simp [startsSeg]
  | cons c ts ih =>
    cases s with
    | nil => simp [startsSeg]
    | cons d ss =>
      simp [startsSeg, ih, List.cons_prefix_cons]

/-- The substring checker decides the contiguous-segment relation. -/
theorem containsSeg_iff (s tok : JSStr) : containsSeg s tok = true ↔ tok <:+: s := by
  induction s with
  | nil => simp [containsSeg, startsSeg_iff]
  | cons c t ih =>
    rw [List.infix_cons_iff]
    simp [containsSeg, startsSeg_iff, ih]

/-- Substring containment is transitive along a sub-token. -/
theorem containsSeg_of_seg (s tok tok' : JSStr) (h1 : containsSeg s tok = true)
    (h2 : tok' <:+: tok) : containsSeg s tok' = true :=
  (containsSeg_iff s tok').mpr (h2.trans ((containsSeg_iff s tok).mp h1))

/-- Reversal maps a contiguous segment to a contiguous segment. -/
theorem seg_reverse_of (tok l : JSStr) (h : tok <:+: l) : tok.reverse <:+: l.reverse := by
  obtain ⟨s, t, ht⟩ := h
  exact ⟨t.reverse, s.reverse, by
    have := congrArg List.reverse ht
    simpa [List.reverse_append, List.append_assoc] using this⟩

/-- Reversal reflects the segment relation as well. -/
theorem seg_reverse_iff (tok l : JSStr) : tok.reverse <:+: l.reverse ↔ tok <:+: l := by
  constructor
  · intro h
    simpa using seg_reverse_of tok.reverse l.reverse h
  · exact seg_reverse_of tok l

/-- A nonempty token made of characters rejected by `p` survives
`dropWhile p`. -/
theorem seg_dropWhile (p : Char → Bool) (tok : JSStr) (h0 : tok ≠ [])
    (hp : ∀ c ∈ tok, p c = false) :
    ∀ l : JSStr, tok <:+: l → tok <:+: l.dropWhile p := by
  intro l
  induction l with
  | nil => intro h; simpa using h
  | cons c t ih =>
    intro h
    rw [List.dropWhile_cons]
    by_cases hc : p c
    · simp only [hc, if_true]
      apply ih
      rcases List.infix_cons_iff.mp h with hpre | hseg
      · exfalso
        cases tok with
        | nil => exact h0 rfl
        | cons c0 ts =>
          obtain ⟨r, hr⟩ := hpre
          have hc0 : c0 = c := by
            have := congrArg (fun x => x.head?) hr
            simpa using this
          have := hp c0 (by simp)
          rw [hc0, hc] at this
          exact absurd this (by simp)
      · exact hseg
    · simp only [hc, if_false]
      exact h

/-- The trimmed line is a contiguous segment of the line. -/
theorem jsTrim_seg (l : JSStr) : jsTrim l <:+: l := by
  have h1 : (l.dropWhile isWs) <:+ l := List.dropWhile_suffix isWs
  have h2 : ((l.dropWhile isWs).reverse.dropWhile isWs) <:+ (l.dropWhile isWs).reverse :=
    List.dropWhile_suffix isWs
  obtain ⟨s, hs⟩ := h2
  have h3 : jsTrim l <+: l.dropWhile isWs := by
    refine ⟨s.reverse, ?_⟩
    have := congrArg List.reverse hs
    simpa [jsTrim, List.reverse_append] using this
  exact h3.isInfix.trans h1.isInfix

/-- A nonempty whitespace-free token occurs in a line exactly when it
occurs in the trimmed line. -/
theorem seg_jsTrim (tok l : JSStr) (h0 : tok ≠ []) (hp : ∀ c ∈ tok, isWs c = false) :
    tok <:+: l ↔ tok <:+: jsTrim l := by
  constructor
  · intro h
    have hu : tok <:+: l.dropWhile isWs := seg_dropWhile isWs tok h0 hp l h
    have hur : tok.reverse <:+: (l.dropWhile isWs).reverse :=
      seg_reverse_of tok (l.dropWhile isWs) hu
    have hv : tok.reverse <:+: (l.dropWhile isWs).reverse.dropWhile isWs := by
      refine seg_dropWhile isWs tok.reverse (by simpa using h0) ?_ _ hur
      intro c hc
      exact hp c (by simpa using hc)
    have := seg_reverse_of tok.reverse ((l.dropWhile isWs).reverse.dropWhile isWs) hv
    simpa [jsTrim] using this
  · intro h
    exact h.trans (jsTrim_seg l)

/-- Token matching is invariant under trimming, for token lists of
nonempty whitespace-free tokens. -/
theorem matchesAny_jsTrim (toks : List JSStr)
    (hp : ∀ t ∈ toks, t ≠ [] ∧ ∀ c ∈ t, isWs c = false) (l : JSStr) :
    LogParser.matchesAny toks (jsTrim l) = LogParser.matchesAny toks l := by
  rw [Bool.eq_iff_iff]
  simp only [LogParser.matchesAny, List.any_eq_true]
  constructor
  · rintro ⟨t, ht, hc⟩
    refine ⟨t, ht, ?_⟩
    exact (containsSeg_iff l t).mpr
      ((seg_jsTrim t l (hp t ht).1 (hp t ht).2).mpr ((containsSeg_iff (jsTrim l) t).mp hc))
  · rintro ⟨t, ht, hc⟩
    refine ⟨t, ht, ?_⟩
    exact (containsSeg_iff (jsTrim l) t).mpr
      ((seg_jsTrim t l (hp t ht).1 (hp t ht).2).mp ((containsSeg_iff l t).mp hc))

/-- Every error-tier token is nonempty and whitespace-free. -/
theorem errorTokens_ok : ∀ t ∈ LogParser.errorTokens, t ≠ [] ∧ ∀ c ∈ t, isWs c = false := by
  decide

/-- Every informational-tier token is nonempty and whitespace-free. -/
theorem infoTokens_ok : ∀ t ∈ LogParser.infoTokens, t ≠ [] ∧ ∀ c ∈ t, isWs c = false := by
  decide

/-- One loop iteration of the extractor preserves the invariant. -/
theorem extractStep_inv (n : Int) (processed : List JSStr) (st : LogParser.ExtractSt)
    (l : JSStr) (h : ExtractInv processed st) :
    ExtractInv (processed ++ [l]) (LogParser.extractStep n st l) := by
  have herr := matchesAny_jsTrim LogParser.errorTokens errorTokens_ok l
  have hinf := matchesAny_jsTrim LogParser.infoTokens infoTokens_ok l
  simp only [LogParser.extractStep]
  split_ifs with h1 h2 h3
  · -- blank line or already seen: state unchanged
    refine ⟨h.seen_iff, h.nodup, h.err_match, h.info_match, ?_⟩
    intro l' hl' hm
    rcases List.mem_append.mp hl' with hold | hnew
    · exact h.err_complete l' hold hm
    · have hl : l' = l := by simpa using hnew
      subst hl
      rcases h1 with hempty | hseen
      · rw [hempty] at hm
        exact absurd hm (by decide)
      · rcases (h.seen_iff _).mp hseen with he | hi
        · exact he
        · exact absurd hm (by simp [(h.info_match _ hi).1])
  · -- error-tier line, not yet seen: appended to errorLines
    have hne : jsTrim l ≠ [] := fun hx => h1 (Or.inl hx)
    have hnotseen : jsTrim l ∉ st.seen := fun hx => h1 (Or.inr hx)
    have hnotE : jsTrim l ∉ st.errorLines := fun hx => hnotseen ((h.seen_iff _).mpr (Or.inl hx))
    have hnotI : jsTrim l ∉ st.infoLines := fun hx => hnotseen ((h.seen_iff _).mpr (Or.inr hx))
    have hn := List.nodup_append.mp h.nodup
    refine ⟨?_, ?_, ?_, ?_, ?_⟩
    · intro x
      simp only [List.mem_append, List.mem_singleton]
      rw [h.seen_iff x]
      tauto
    · refine List.nodup_append.mpr ⟨?_, hn.2.1, ?_⟩
      · refine List.nodup_append.mpr ⟨hn.1, List.nodup_singleton _, ?_⟩
        intro x hx hx'
        have hxe : x = jsTrim l := by simpa using hx'
        subst hxe
        exact hnotE hx
      · intro x hx hx'
        rcases List.mem_append.mp hx with h' | h'
        · exact hn.2.2 h' hx'
        · have hxe : x = jsTrim l := by simpa using h'
          subst hxe
          exact hnotI hx'
    · intro x hx
      rcases List.mem_append.mp hx with h' | h'
      · exact h.err_match x h'
      · have hxe : x = jsTrim l := by simpa using h'
        subst hxe
        rw [herr]
        exact h2
    · exact h.info_match
    · intro l' hl' hm
      rcases List.mem_append.mp hl' with hold | hnew
      · exact List.mem_append_left _ (h.err_complete l' hold hm)
      · have hl : l' = l := by simpa using hnew
        subst hl
        simp
  · -- informational line under the cap, not yet seen: appended to infoLines
    have hnotseen : jsTrim l ∉ st.seen := fun hx => h1 (Or.inr hx)
    have hnotE : jsTrim l ∉ st.errorLines := fun hx => hnotseen ((h.seen_iff _).mpr (Or.inl hx))
    have hnotI : jsTrim l ∉ st.infoLines := fun hx => hnotseen ((h.seen_iff _).mpr (Or.inr hx))
    have hn := List.nodup_append.mp h.nodup
    refine ⟨?_, ?_, ?_, ?_, ?_⟩
    · intro x
      simp only [List.mem_append, List.mem_singleton]
      rw [h.seen_iff x]
      tauto
    · refine List.nodup_append.mpr ⟨hn.1, ?_, ?_⟩
      · refine List.nodup_append.mpr ⟨hn.2.1, List.nodup_singleton _, ?_⟩
        intro x hx hx'
        have hxe : x = jsTrim l := by simpa using hx'
        subst hxe
        exact hnotI hx
      · intro x hx hx'
        rcases List.mem_append.mp hx' with h' | h'
        · exact hn.2.2 hx h'
        · have hxe : x = jsTrim l := by simpa using h'
          subst hxe
          exact hnotE hx
    · exact h.err_match
    · intro x hx
      rcases List.mem_append.mp hx with h' | h'
      · exact h.info_match x h'
      · have hxe : x = jsTrim l := by simpa using h'
        subst hxe
        constructor
        · rw [herr]
          simpa using h2
        · rw [hinf]
          exact h3.1
    · intro l' hl' hm
      rcases List.mem_append.mp hl' with hold | hnew
      · exact h.err_complete l' hold hm
      · have hl : l' = l := by simpa using hnew
        subst hl
        rw [herr] at hm
        exact absurd hm h2
  · -- no token matched (or cap reached on an info line): state unchanged
    refine ⟨h.seen_iff, h.nodup, h.err_match, h.info_match, ?_⟩
    intro l' hl' hm
    rcases List.mem_append.mp hl' with hold | hnew
    · exact h.err_complete l' hold hm
    · have hl : l' = l := by simpa using hnew
      subst hl
      rw [herr] at hm
      exact absurd hm h2

/-- The invariant is preserved along the whole fold. -/
theorem foldl_extract_inv (n : Int) :
    ∀ (ls processed : List JSStr) (st : LogParser.ExtractSt),
      ExtractInv processed st →
      ExtractInv (processed ++ ls) (ls.foldl (LogParser.extractStep n) st) := by
  intro ls
  induction ls with
  | nil => intro processed st h; simpa using h
  | cons l ls ih =>
    intro processed st h
    have h1 := extractStep_inv n processed st l h
    have h2 := ih (processed ++ [l]) (LogParser.extractStep n st l) h1
    simpa [List.append_assoc] using h2

/-- The final loop state of the extractor satisfies the invariant. -/
theorem extractRun_inv (c : JSStr) (n : Int) :
    ExtractInv (splitLines c) (LogParser.extractRun c n) := by
  have h0 : ExtractInv [] ⟨[], [], []⟩ := by
    constructor <;> simp
  simpa using foldl_extract_inv n (splitLines c) [] ⟨[], [], []⟩ h0

/-- For a nonnegative cut the extractor output is a `take` of the
concatenated error and info lists. -/
theorem extractKeyLines_eq_take (c : JSStr) (n : Nat) :
    LogParser.extractKeyLines c (n : Int) =
      ((LogParser.extractRun c (n : Int)).errorLines ++
        (LogParser.extractRun c (n : Int)).infoLines).take n := by
  unfold LogParser.extractKeyLines jsSliceTo
  rw [if_neg (by omega)]
  simp

/-- The extractor output is a sublist of the concatenated error and info
lists, for every cut value. -/
theorem extractKeyLines_sublist (c : JSStr) (n : Int) :
    List.Sublist (LogParser.extractKeyLines c n)
      ((LogParser.extractRun c n).errorLines ++ (LogParser.extractRun c n).infoLines) := by
  unfold LogParser.extractKeyLines jsSliceTo
  split <;> exact List.take_sublist _ _

/-- Claim C8: for every content string and cut value, the output of
`extractKeyLines` contains no duplicate entries — every trimmed line
appears at most once, with deduplication by exact, case-sensitive match
on the trimmed line. -/
theorem c8_extractKeyLines_nodup :
    ∀ (c : JSStr) (n : Int), (LogParser.extractKeyLines c n).Nodup := by
  intro c n
  have hinv := extractRun_inv c n
  exact hinv.nodup.sublist (extractKeyLines_sublist c n)

/-- Claim C3 counterexample: at `maxLines = -1` (JavaScript
`slice(0, -1)` drops the last element instead of producing an empty
list), a content string with two distinct error lines yields an output
of length 1, which is not at most `-1`. -/
theorem c3_negative_maxLines_counterexample :
    ¬ (((LogParser.extractKeyLines "FATAL_ERROR a\nFATAL_ERROR b".data (-1)).length : Int) ≤ -1) := by
  decide

/-- Claim C3 (amended): for every content string and every nonnegative
`maxLines`, the sequence returned by `extractKeyLines` has length at most
`maxLines`; for negative `maxLines` the bound fails (see the
counterexample). -/
theorem c3_length_le_maxLines (c : JSStr) (n : Int) (h : 0 ≤ n) :
    ((LogParser.extractKeyLines c n).length : Int) ≤ n := by
  unfold LogParser.extractKeyLines jsSliceTo
  rw [if_neg (by omega)]
  have h1 := List.length_take_le n.toNat
    ((LogParser.extractRun c n).errorLines ++ (LogParser.extractRun c n).infoLines)
  have h2 := Int.toNat_of_nonneg h
  omega

/-- Witness for claim C3's theorem at a concrete input. -/
theorem c3_witness :
    ((LogParser.extractKeyLines "FATAL_ERROR a\nLIMIT_USAGE b".data 1).length : Int) ≤ 1 :=
  c3_length_le_maxLines "FATAL_ERROR a\nLIMIT_USAGE b".data 1 (by norm_num)

/-- Claim C4: every line of the content whose trim matches an error-tier
token appears in the output of `extractKeyLines`, unless the output
already holds `maxLines` entries consisting purely of error-tier lines;
and the output is an error-tier block followed by an informational-tier
block (info lines never displace error lines). -/
theorem c4_error_lines_never_preempted (c : JSStr) (n : Nat) :
    (∀ l ∈ splitLines c, LogParser.matchesAny LogParser.errorTokens (jsTrim l) = true →
      (jsTrim l ∈ LogParser.extractKeyLines c (n : Int) ∨
        ((LogParser.extractKeyLines c (n : Int)).length = n ∧
          ∀ x ∈ LogParser.extractKeyLines c (n : Int),
            LogParser.matchesAny LogParser.errorTokens x = true))) ∧
    (∃ e i : List JSStr, LogParser.extractKeyLines c (n : Int) = e ++ i ∧
      (∀ x ∈ e, LogParser.matchesAny LogParser.errorTokens x = true) ∧
      (∀ x ∈ i, LogParser.matchesAny LogParser.errorTokens x = false ∧
        LogParser.matchesAny LogParser.infoTokens x = true)) := by
  have hinv := extractRun_inv c (n : Int)
  have hkey := extractKeyLines_eq_take c n
  constructor
  · intro l hl hm
    have hmem : jsTrim l ∈ (LogParser.extractRun c (n : Int)).errorLines :=
      hinv.err_complete l hl hm
    by_cases hle : (LogParser.extractRun c (n : Int)).errorLines.length ≤ n
    · left
      rw [hkey, List.take_append_eq_append_take, List.take_of_length_le hle]
      exact List.mem_append_left _ hmem
    · right
      push_neg at hle
      have htake : ((LogParser.extractRun c (n : Int)).errorLines ++
          (LogParser.extractRun c (n : Int)).infoLines).take n =
          (LogParser.extractRun c (n : Int)).errorLines.take n :=
        List.take_append_of_le_length (le_of_lt hle)
      constructor
      · rw [hkey, htake, List.length_take]
        exact Nat.min_eq_left (le_of_lt hle)
      · intro x hx
        rw [hkey, htake] at hx
        exact hinv.err_match x (List.take_subset _ _ hx)
  · refine ⟨(LogParser.extractRun c (n : Int)).errorLines.take n,
      (LogParser.extractRun c (n : Int)).infoLines.take
        (n - (LogParser.extractRun c (n : Int)).errorLines.length), ?_, ?_, ?_⟩
    · rw [hkey, List.take_append_eq_append_take]
    · intro x hx
      exact hinv.err_match x (List.take_subset _ _ hx)
    · intro x hx
      exact hinv.info_match x (List.take_subset _ _ hx)

/-- Every scalar occupies at least one UTF-8 byte. -/
theorem utf8CharLen_pos (c : Char) : 1 ≤ utf8CharLen c := by
  unfold utf8CharLen
  split_ifs <;> norm_num

/-- A nonempty string has positive UTF-8 byte length. -/
theorem utf8ByteLength_pos (s : JSStr) (h : s ≠ []) : 1 ≤ utf8ByteLength s := by
  cases s with
  | nil => exact absurd rfl h
  | cons c t =>
    have := utf8CharLen_pos c
    simp only [utf8ByteLength, List.map_cons, List.sum_cons]
    omega

/-- Claim C1: at the failing input `twoByteOpts` (UTF-8 byte length 4,
budget 3) the packet carries the truncation notice, yet the raw-log
section is the whole content of 4 UTF-8 bytes: `substring` counts code
units, not bytes, so the budget is exceeded rather than rounded down to a
character boundary. -/
theorem c1_truncation_not_byte_accurate :
    Markdown.isTruncatedFlag twoByteOpts = true ∧
    (∃ s t : JSStr, Markdown.generateAnalysisContent twoByteOpts exampleTimestamp =
      s ++ Markdown.truncationNotice ++ t) ∧
    Markdown.rawLogContent twoByteOpts = "éé".data ∧
    utf8ByteLength (Markdown.rawLogContent twoByteOpts) = 4 ∧
    twoByteOpts.truncateRawLogBytes = 3 := by
  have htr : Markdown.isTruncatedFlag twoByteOpts = true := by decide
  refine ⟨htr, ⟨Markdown.packetHead twoByteOpts exampleTimestamp,
    "```\n".data ++ Markdown.rawLogContent twoByteOpts ++ "\n```\n".data, ?_⟩, ?_, ?_, rfl⟩
  · unfold Markdown.generateAnalysisContent
    rw [htr]
    simp [List.append_assoc]
  · decide
  · decide

/-- Claim C2 counterexample: `maxLines = 0` and `truncateRawLogBytes = 0`
are not rejected — both operations return ordinary values instead of a
descriptive failure. -/
theorem c2_no_boundary_rejection :
    LogParser.extractKeyLinesE "FATAL_ERROR x".data 0 = Except.ok [] ∧
    (Markdown.generateAnalysisContentE zeroBudgetOpts exampleTimestamp).isOk = true := by
  exact ⟨rfl, rfl⟩

/-- Claim C2 (amended): neither `extractKeyLines` nor
`generateAnalysisContent` validates its bound parameter; non-positive
values are accepted (`maxLines = 0` yields the empty list, a non-positive
byte budget marks any nonempty content truncated and empties the raw-log
section), and no combination of content and parameters ever raises an
error. -/
theorem c2_no_validation_total (c : JSStr) (n : Int)
    (o : Markdown.AnalysisPacketOptions) (ts : JSStr) :
    (LogParser.extractKeyLinesE c n).isOk = true ∧
    (Markdown.generateAnalysisContentE o ts).isOk = true ∧
    LogParser.extractKeyLines c 0 = [] ∧
    (o.truncateRawLogBytes ≤ 0 → o.logContent ≠ [] → Markdown.rawLogContent o = []) := by
  refine ⟨rfl, rfl, ?_, ?_⟩
  · unfold LogParser.extractKeyLines jsSliceTo
    rw [if_neg (by omega)]
    simp
  · intro hb hc
    have htr : Markdown.isTruncatedFlag o = true := by
      unfold Markdown.isTruncatedFlag
      rw [decide_eq_true_iff]
      have := utf8ByteLength_pos o.logContent hc
      omega
    unfold Markdown.rawLogContent jsSubstringTo
    rw [htr, if_pos rfl, Int.toNat_of_nonpos hb]
    simp

/-- Witness for claim C2's theorem at a concrete input. -/
theorem c2_witness : Markdown.rawLogContent zeroBudgetOpts = [] :=
  (c2_no_validation_total [] 0 zeroBudgetOpts exampleTimestamp).2.2.2
    (by decide) (by decide)

/-- Witness for claim C4's theorem at a concrete input. -/
theorem c4_witness :
    jsTrim "FATAL_ERROR a".data ∈
        LogParser.extractKeyLines "FATAL_ERROR a\nLIMIT_USAGE b".data ((5 : Nat) : Int) ∨
      ((LogParser.extractKeyLines "FATAL_ERROR a\nLIMIT_USAGE b".data ((5 : Nat) : Int)).length = 5 ∧
        ∀ x ∈ LogParser.extractKeyLines "FATAL_ERROR a\nLIMIT_USAGE b".data ((5 : Nat) : Int),
          LogParser.matchesAny LogParser.errorTokens x = true) :=
  (c4_error_lines_never_preempted "FATAL_ERROR a\nLIMIT_USAGE b".data 5).1
    "FATAL_ERROR a".data (by decide) (by decide)

/-- The exceptions bucket after one analyzer loop iteration. -/
theorem analyzeLine_exceptions (a : Mcp.LogAnalysis) (l : JSStr) :
    (Mcp.analyzeLine a l).exceptions =
      a.exceptions ++ (if Mcp.isExceptionLine l then [jsTrim l] else []) := by
  simp only [Mcp.analyzeLine]
  split_ifs <;> simp

/-- The fatal-errors bucket after one analyzer loop iteration. -/
theorem analyzeLine_fatalErrors (a : Mcp.LogAnalysis) (l : JSStr) :
    (Mcp.analyzeLine a l).fatalErrors =
      a.fatalErrors ++ (if Mcp.isFatalLine l then [jsTrim l] else []) := by
  simp only [Mcp.analyzeLine]
  split_ifs <;> simp

/-- The limit-issues bucket after one analyzer loop iteration. -/
theorem analyzeLine_limitIssues (a : Mcp.LogAnalysis) (l : JSStr) :
    (Mcp.analyzeLine a l).limitIssues =
      a.limitIssues ++ (if Mcp.isLimitLine l then [jsTrim l] else []) := by
  simp only [Mcp.analyzeLine]
  split_ifs <;> simp

/-- The flow-errors bucket after one analyzer loop iteration. -/
theorem analyzeLine_flowErrors (a : Mcp.LogAnalysis) (l : JSStr) :
    (Mcp.analyzeLine a l).flowErrors =
      a.flowErrors ++ (if Mcp.isFlowLine l then [jsTrim l] else []) := by
  simp only [Mcp.analyzeLine]
  split_ifs <;> simp

/-- The validation-errors bucket after one analyzer loop iteration. -/
theorem analyzeLine_validationErrors (a : Mcp.LogAnalysis) (l : JSStr) :
    (Mcp.analyzeLine a l).validationErrors =
      a.validationErrors ++ (if Mcp.isValidationLine l then [jsTrim l] else []) := by
  simp only [Mcp.analyzeLine]
  split_ifs <;> simp

/-- The error flag after one analyzer loop iteration. -/
theorem analyzeLine_hasErrors (a : Mcp.LogAnalysis) (l : JSStr) :
    (Mcp.analyzeLine a l).hasErrors =
      (a.hasErrors || Mcp.isExceptionLine l || Mcp.isFatalLine l || Mcp.isLimitLine l ||
        Mcp.isFlowLine l || Mcp.isValidationLine l) := by
  simp only [Mcp.analyzeLine]
  split_ifs <;> simp [*]

/-- The analyzer loop never writes the summary field. -/
theorem analyzeLine_summary (a : Mcp.LogAnalysis) (l : JSStr) :
    (Mcp.analyzeLine a l).summary = a.summary := by
  simp only [Mcp.analyzeLine]
  split_ifs <;> simp

/-- The analyzer fold never writes the summary field. -/
theorem analyzeFold_summary (ls : List JSStr) :
    ∀ a : Mcp.LogAnalysis, (ls.foldl Mcp.analyzeLine a).summary = a.summary := by
  induction ls with
  | nil => intro a; rfl
  | cons l ls ih =>
    intro a
    rw [List.foldl_cons, ih, analyzeLine_summary]

/-- The analyzer fold preserves the invariant that the error flag holds
exactly when some bucket is non-empty. -/
theorem analyzeFold_hasErrors_iff (ls : List JSStr) :
    ∀ a : Mcp.LogAnalysis,
      (a.hasErrors = true ↔
        (a.exceptions ≠ [] ∨ a.fatalErrors ≠ [] ∨ a.limitIssues ≠ [] ∨
          a.flowErrors ≠ [] ∨ a.validationErrors ≠ [])) →
      ((ls.foldl Mcp.analyzeLine a).hasErrors = true ↔
        ((ls.foldl Mcp.analyzeLine a).exceptions ≠ [] ∨
          (ls.foldl Mcp.analyzeLine a).fatalErrors ≠ [] ∨
          (ls.foldl Mcp.analyzeLine a).limitIssues ≠ [] ∨
          (ls.foldl Mcp.analyzeLine a).flowErrors ≠ [] ∨
          (ls.foldl Mcp.analyzeLine a).validationErrors ≠ [])) := by
  induction ls with
  | nil => intro a h; exact h
  | cons l ls ih =>
    intro a h
    rw [List.foldl_cons]
    apply ih
    rw [analyzeLine_hasErrors, analyzeLine_exceptions, analyzeLine_fatalErrors,
      analyzeLine_limitIssues, analyzeLine_flowErrors, analyzeLine_validationErrors]
    cases hE : Mcp.isExceptionLine l <;> cases hF : Mcp.isFatalLine l <;>
      cases hL : Mcp.isLimitLine l <;> cases hW : Mcp.isFlowLine l <;>
      cases hV : Mcp.isValidationLine l <;>
      simp_all

/-- Bucket contents only grow along the analyzer fold (exceptions). -/
theorem analyzeFold_exc_mono (ls : List JSStr) :
    ∀ (a : Mcp.LogAnalysis) (x : JSStr), x ∈ a.exceptions →
      x ∈ (ls.foldl Mcp.analyzeLine a).exceptions := by
  induction ls with
  | nil => intro a x hx; exact hx
  | cons l ls ih =>
    intro a x hx
    rw [List.foldl_cons]
    exact ih _ x (by rw [analyzeLine_exceptions]; exact List.mem_append_left _ hx)

/-- Bucket contents only grow along the analyzer fold (fatal errors). -/
theorem analyzeFold_fatal_mono (ls : List JSStr) :
    ∀ (a : Mcp.LogAnalysis) (x : JSStr), x ∈ a.fatalErrors →
      x ∈ (ls.foldl Mcp.analyzeLine a).fatalErrors := by
  induction ls with
  | nil => intro a x hx; exact hx
  | cons l ls ih =>
    intro a x hx
    rw [List.foldl_cons]
    exact ih _ x (by rw [analyzeLine_fatalErrors]; exact List.mem_append_left _ hx)

/-- Bucket contents only grow along the analyzer fold (flow errors). -/
theorem analyzeFold_flow_mono (ls : List JSStr) :
    ∀ (a : Mcp.LogAnalysis) (x : JSStr), x ∈ a.flowErrors →
      x ∈ (ls.foldl Mcp.analyzeLine a).flowErrors := by
  induction ls with
  | nil => intro a x hx; exact hx
  | cons l ls ih =>
    intro a x hx
    rw [List.foldl_cons]
    exact ih _ x (by rw [analyzeLine_flowErrors]; exact List.mem_append_left _ hx)

/-- A processed line matching the exceptions trigger lands in the
exceptions bucket. -/
theorem analyzeFold_exc_mem (ls : List JSStr) :
    ∀ (a : Mcp.LogAnalysis) (l : JSStr), l ∈ ls → Mcp.isExceptionLine l = true →
      jsTrim l ∈ (ls.foldl Mcp.analyzeLine a).exceptions := by
  induction ls with
  | nil => intro a l hl; exact absurd hl (List.not_mem_nil l)
  | cons l0 ls ih =>
    intro a l hl hm
    rw [List.foldl_cons]
    rcases List.mem_cons.mp hl with hl | hl
    · subst hl
      apply analyzeFold_exc_mono
      rw [analyzeLine_exceptions, hm, if_pos rfl]
      simp
    · exact ih _ l hl hm

/-- A processed line matching the fatal-errors trigger lands in the
fatal-errors bucket. -/
theorem analyzeFold_fatal_mem (ls : List JSStr) :
    ∀ (a : Mcp.LogAnalysis) (l : JSStr), l ∈ ls → Mcp.isFatalLine l = true →
      jsTrim l ∈ (ls.foldl Mcp.analyzeLine a).fatalErrors := by
  induction ls with
  | nil => intro a l hl; exact absurd hl (List.not_mem_nil l)
  | cons l0 ls ih =>
    intro a l hl hm
    rw [List.foldl_cons]
    rcases List.mem_cons.mp hl with hl | hl
    · subst hl
      apply analyzeFold_fatal_mono
      rw [analyzeLine_fatalErrors, hm, if_pos rfl]
      simp
    · exact ih _ l hl hm

/-- A processed line matching the flow-errors trigger lands in the
flow-errors bucket. -/
theorem analyzeFold_flow_mem (ls : List JSStr) :
    ∀ (a : Mcp.LogAnalysis) (l : JSStr), l ∈ ls → Mcp.isFlowLine l = true →
      jsTrim l ∈ (ls.foldl Mcp.analyzeLine a).flowErrors := by
  induction ls with
  | nil => intro a l hl; exact absurd hl (List.not_mem_nil l)
  | cons l0 ls ih =>
    intro a l hl hm
    rw [List.foldl_cons]
    rcases List.mem_cons.mp hl with hl | hl
    · subst hl
      apply analyzeFold_flow_mono
      rw [analyzeLine_flowErrors, hm, if_pos rfl]
      simp
    · exact ih _ l hl hm

/-- The summary-building step does not change the exceptions bucket. -/
theorem analyzeLogContent_exceptions (f c : JSStr) :
    (Mcp.analyzeLogContent f c).exceptions =
      ((splitLines c).foldl Mcp.analyzeLine (Mcp.initAnalysis f)).exceptions := by
  simp only [Mcp.analyzeLogContent]
  split <;> rfl

/-- The summary-building step does not change the fatal-errors bucket. -/
theorem analyzeLogContent_fatalErrors (f c : JSStr) :
    (Mcp.analyzeLogContent f c).fatalErrors =
      ((splitLines c).foldl Mcp.analyzeLine (Mcp.initAnalysis f)).fatalErrors := by
  simp only [Mcp.analyzeLogContent]
  split <;> rfl

/-- The summary-building step does not change the limit-issues bucket. -/
theorem analyzeLogContent_limitIssues (f c : JSStr) :
    (Mcp.analyzeLogContent f c).limitIssues =
      ((splitLines c).foldl Mcp.analyzeLine (Mcp.initAnalysis f)).limitIssues := by
  simp only [Mcp.analyzeLogContent]
  split <;> rfl

/-- The summary-building step does not change the flow-errors bucket. -/
theorem analyzeLogContent_flowErrors (f c : JSStr) :
    (Mcp.analyzeLogContent f c).flowErrors =
      ((splitLines c).foldl Mcp.analyzeLine (Mcp.initAnalysis f)).flowErrors := by
  simp only [Mcp.analyzeLogContent]
  split <;> rfl

/-- The summary-building step does not change the validation-errors bucket. -/
theorem analyzeLogContent_validationErrors (f c : JSStr) :
    (Mcp.analyzeLogContent f c).validationErrors =
      ((splitLines c).foldl Mcp.analyzeLine (Mcp.initAnalysis f)).validationErrors := by
  simp only [Mcp.analyzeLogContent]
  split <;> rfl

/-- The summary-building step does not change the error flag. -/
theorem analyzeLogContent_hasErrors (f c : JSStr) :
    (Mcp.analyzeLogContent f c).hasErrors =
      ((splitLines c).foldl Mcp.analyzeLine (Mcp.initAnalysis f)).hasErrors := by
  simp only [Mcp.analyzeLogContent]
  split <;> rfl

/-- Helper for claims C5 and C10: the analyzer's error flag holds exactly
when some bucket is non-empty. -/
theorem analyzeLogContent_hasErrors_iff (f c : JSStr) :
    (Mcp.analyzeLogContent f c).hasErrors = true ↔
      ((Mcp.analyzeLogContent f c).exceptions ≠ [] ∨
        (Mcp.analyzeLogContent f c).fatalErrors ≠ [] ∨
        (Mcp.analyzeLogContent f c).limitIssues ≠ [] ∨
        (Mcp.analyzeLogContent f c).flowErrors ≠ [] ∨
        (Mcp.analyzeLogContent f c).validationErrors ≠ []) := by
  rw [analyzeLogContent_hasErrors, analyzeLogContent_exceptions, analyzeLogContent_fatalErrors,
    analyzeLogContent_limitIssues, analyzeLogContent_flowErrors,
    analyzeLogContent_validationErrors]
  exact analyzeFold_hasErrors_iff (splitLines c) (Mcp.initAnalysis f) (by simp [Mcp.initAnalysis])

/-- When the analyzer reports no errors, the summary stays empty. -/
theorem analyzeLogContent_summary_empty (f c : JSStr)
    (h : (Mcp.analyzeLogContent f c).hasErrors = false) :
    (Mcp.analyzeLogContent f c).summary = [] := by
  simp only [Mcp.analyzeLogContent] at h ⊢
  cases ha : ((splitLines c).foldl Mcp.analyzeLine (Mcp.initAnalysis f)).hasErrors
  · rw [if_neg (by simp [ha])]
    rw [analyzeFold_summary]
    rfl
  · rw [if_pos (by simp [ha])] at h
    simp only [ha] at h
    exact absurd h (by simp)

/-- Claim C5: for every filename and content, the analyzer's `hasErrors`
is true exactly when one of the five category buckets is non-empty, and
the summary is empty whenever `hasErrors` is false. -/
theorem c5_hasErrors_iff_buckets (f c : JSStr) :
    ((Mcp.analyzeLogContent f c).hasErrors = true ↔
      ((Mcp.analyzeLogContent f c).exceptions ≠ [] ∨
        (Mcp.analyzeLogContent f c).fatalErrors ≠ [] ∨
        (Mcp.analyzeLogContent f c).limitIssues ≠ [] ∨
        (Mcp.analyzeLogContent f c).flowErrors ≠ [] ∨
        (Mcp.analyzeLogContent f c).validationErrors ≠ [])) ∧
    ((Mcp.analyzeLogContent f c).hasErrors = false →
      (Mcp.analyzeLogContent f c).summary = []) :=
  ⟨analyzeLogContent_hasErrors_iff f c, analyzeLogContent_summary_empty f c⟩

/-- Witness for claim C5's theorem at a concrete input. -/
theorem c5_witness : (Mcp.analyzeLogContent "f.log".data "all good here".data).summary = [] :=
  (c5_hasErrors_iff_buckets "f.log".data "all good here".data).2 (by decide)

/-- Claim C9: category membership is independent: every line matching the
exceptions trigger lands in the exceptions bucket and every line matching
the fatal-errors trigger lands in the fatal-errors bucket — a line
matching both lands in both, and contributes to both counts in the
summary, as the concrete dual-trigger log shows. -/
theorem c9_multi_membership :
    (∀ (f c : JSStr), ∀ l ∈ splitLines c,
      (Mcp.isExceptionLine l = true → jsTrim l ∈ (Mcp.analyzeLogContent f c).exceptions) ∧
      (Mcp.isFatalLine l = true → jsTrim l ∈ (Mcp.analyzeLogContent f c).fatalErrors)) ∧
    ((Mcp.analyzeLogContent "f.log".data exampleDualLine).exceptions = [exampleDualLine] ∧
      (Mcp.analyzeLogContent "f.log".data exampleDualLine).fatalErrors = [exampleDualLine] ∧
      (Mcp.analyzeLogContent "f.log".data exampleDualLine).summary =
        "1 exception(s), 1 fatal error(s)".data) := by
  refine ⟨?_, by decide, by decide, by decide⟩
  intro f c l hl
  constructor
  · intro hm
    rw [analyzeLogContent_exceptions]
    exact analyzeFold_exc_mem (splitLines c) (Mcp.initAnalysis f) l hl hm
  · intro hm
    rw [analyzeLogContent_fatalErrors]
    exact analyzeFold_fatal_mem (splitLines c) (Mcp.initAnalysis f) l hl hm

/-- Witness for claim C9's theorem at a concrete input. -/
theorem c9_witness :
    jsTrim exampleDualLine ∈ (Mcp.analyzeLogContent "a.log".data exampleDualLine).exceptions :=
  (c9_multi_membership.1 "a.log".data exampleDualLine exampleDualLine (by decide)).1 (by decide)

/-- A successful limit-regex match implies the line contains LIMIT_USAGE. -/
theorem limitRegexMatch_seg :
    ∀ (line rest : JSStr), Mcp.limitRegexMatch line = some rest →
      "LIMIT_USAGE".data <:+: line := by
  intro line
  induction line with
  | nil => intro rest h; exact absurd h (by simp [Mcp.limitRegexMatch])
  | cons c t ih =>
    intro rest h
    simp only [Mcp.limitRegexMatch] at h
    split at h
    next hp => exact ((startsSeg_iff _ _).mp hp).isInfix
    next hp => exact (ih rest h).trans (List.suffix_cons c t).isInfix

/-- Claim C6 counterexample: the program compares `used / max > 0.8` in
binary64 arithmetic, not over the exact rationals.  At used =
4000000000000001 and max = 5000000000000001 (both below 2^53, so
`parseInt` is exact) the quotient rounds to exactly the double 0.8, so
the line is NOT classified, although 4000000000000001/5000000000000001 >
4/5 exactly (5·used > 4·max). -/
theorem c6_float_rounding_counterexample :
    Mcp.isLimitLine
      "A|LIMIT_USAGE|4000000000000001 out of 5000000000000001".data = false ∧
    Mcp.limitRegexMatch "A|LIMIT_USAGE|4000000000000001 out of 5000000000000001".data =
      some "4000000000000001 out of 5000000000000001".data ∧
    Mcp.findUsedMax "4000000000000001 out of 5000000000000001".data =
      some (4000000000000001, 5000000000000001) ∧
    5 * 4000000000000001 > 4 * 5000000000000001 := by
  refine ⟨by decide, by decide, by decide, by norm_num⟩

/-- Claim C6 (amended): a limit-usage line whose pipe-delimited rest
parses as used out of max is classified as a LimitIssue exactly when the
binary64 quotient `parseInt(used) / parseInt(max)` exceeds the binary64
value of the literal `0.8`.  For the magnitudes of real limit-usage
lines this coincides with the exact comparison used/max > 0.8 — the
spec's scenarios hold: 95 out of 100 is classified, 10 out of 100 is
not — but not for operands near 2^53 (see the counterexample).  A rest
that does not parse is non-matching; the classifier is a total function,
so nothing is thrown. -/
theorem c6_limit_threshold_binary64 :
    (∀ (line rest : JSStr) (u m : Nat),
      Mcp.limitRegexMatch line = some rest →
      Mcp.findUsedMax rest = some (u, m) →
      (Mcp.isLimitLine line = true ↔
        Mcp.jsGt (Mcp.jsDiv (Mcp.jsParseIntNat u) (Mcp.jsParseIntNat m))
          Mcp.pointEight = true)) ∧
    Mcp.isLimitLine "09:00:00.1 (100)|LIMIT_USAGE|SOQL queries|95 out of 100".data = true ∧
    Mcp.isLimitLine "09:00:00.1 (100)|LIMIT_USAGE|SOQL queries|10 out of 100".data = false ∧
    Mcp.isLimitLine "09:00:00.1 (100)|LIMIT_USAGE|no parseable numbers".data = false := by
  refine ⟨?_, by decide, by decide, by decide⟩
  intro line rest u m h1 h2
  have hseg : containsSeg line "LIMIT_USAGE".data = true :=
    (containsSeg_iff _ _).mpr (limitRegexMatch_seg line rest h1)
  simp only [Mcp.isLimitLine, h1, h2, hseg, Bool.true_or, Bool.true_and]

/-- Witness for claim C6's theorem at a concrete input. -/
theorem c6_witness :
    Mcp.isLimitLine "A|LIMIT_USAGE|Apex CPU: 90 out of 100".data = true :=
  (c6_limit_threshold_binary64.1 "A|LIMIT_USAGE|Apex CPU: 90 out of 100".data
    "Apex CPU: 90 out of 100".data 90 100 (by decide) (by decide)).mpr (by decide)

/-- A token occurring in the joined lines occurs in one of the lines,
provided it does not contain the separator. -/
theorem seg_split (tok : JSStr) (sep : Char) (hsep : sep ∉ tok) :
    ∀ a b : JSStr, tok <+: a ++ sep :: b → tok <+: a := by
  intro a
  induction a generalizing tok with
  | nil =>
    intro b h
    cases tok with
    | nil => exact List.nil_prefix
    | cons d ts =>
      obtain ⟨r, hr⟩ := h
      have hd : d = sep := by
        have := congrArg (fun x => x.head?) hr
        simpa using this
      exact absurd (by simp [hd]) hsep
  | cons c a' ih =>
    intro b h
    cases tok with
    | nil => exact List.nil_prefix
    | cons d ts =>
      obtain ⟨r, hr⟩ := h
      have hd : d = c := by
        have := congrArg (fun x => x.head?) hr
        simpa using this
      subst hd
      have hts : ts ++ r = a' ++ sep :: b := by
        have := congrArg List.tail hr
        simpa using this
      have hts' : ts <+: a' := ih ts (fun hx => hsep (List.mem_cons_of_mem d hx)) b ⟨r, hts⟩
      obtain ⟨r', hr'⟩ := hts'
      exact ⟨r', by simp [← hr']⟩

/-- An occurrence of a separator-free token in `a ++ sep :: b` lies
entirely inside `a` or entirely inside `b`. -/
theorem seg_append_sep (tok : JSStr) (sep : Char) (h0 : tok ≠ []) (hsep : sep ∉ tok) :
    ∀ a b : JSStr, tok <:+: a ++ sep :: b → tok <:+: a ∨ tok <:+: b := by
  intro a
  induction a with
  | nil =>
    intro b h
    rcases List.infix_cons_iff.mp h with hpre | hseg
    · have := seg_split tok sep hsep [] b hpre
      rw [List.prefix_nil] at this
      exact absurd this h0
    · exact Or.inr hseg
  | cons c a' ih =>
    intro b h
    rcases List.infix_cons_iff.mp h with hpre | hseg
    · have := seg_split tok sep hsep (c :: a') b hpre
      exact Or.inl this.isInfix
    · rcases ih b hseg with h' | h'
      · exact Or.inl (h'.trans (List.suffix_cons c a').isInfix)
      · exact Or.inr h'

/-- An occurrence of a newline-free token in the joined lines lies inside
one of the lines. -/
theorem seg_joinLines (tok : JSStr) (h0 : tok ≠ []) (hn : '\n' ∉ tok) :
    ∀ L : List JSStr, tok <:+: joinLines L → ∃ l ∈ L, tok <:+: l := by
  intro L
  induction L with
  | nil =>
    intro h
    rw [show joinLines [] = [] from rfl, List.infix_nil] at h
    exact absurd h h0
  | cons l ls ih =>
    cases ls with
    | nil =>
      intro h
      exact ⟨l, by simp, by simpa [joinLines] using h⟩
    | cons l2 ls2 =>
      intro h
      have hj : joinLines (l :: l2 :: ls2) = l ++ '\n' :: joinLines (l2 :: ls2) := rfl
      rw [hj] at h
      rcases seg_append_sep tok '\n' h0 hn l (joinLines (l2 :: ls2)) h with h' | h'
      · exact ⟨l, by simp, h'⟩
      · obtain ⟨l', hl', hseg⟩ := ih h'
        exact ⟨l', by simp [hl'], hseg⟩

/-- Splitting on newlines never yields the empty list of lines. -/
theorem splitLines_ne_nil (s : JSStr) : splitLines s ≠ [] := by
  cases s with
  | nil => simp [splitLines]
  | cons c t =>
    simp only [splitLines]
    split
    · simp
    · split <;> simp

/-- Unfolding `joinLines` at a cons with a nonempty tail. -/
theorem joinLines_cons (l : JSStr) (ls : List JSStr) (h : ls ≠ []) :
    joinLines (l :: ls) = l ++ '\n' :: joinLines ls := by
  cases ls with
  | nil => exact absurd rfl h
  | cons l2 ls2 => rfl

/-- Joining the split lines restores the content. -/
theorem joinLines_splitLines (s : JSStr) : joinLines (splitLines s) = s := by
  induction s with
  | nil => rfl
  | cons c t ih =>
    by_cases hc : c = '\n'
    · subst hc
      cases hsp : splitLines t with
      | nil => exact absurd hsp (splitLines_ne_nil t)
      | cons r rs =>
        rw [hsp] at ih
        simp only [splitLines, hsp, if_true, eq_self_iff_true]
        rw [joinLines_cons [] (r :: rs) (by simp)]
        simp [ih]
    · cases hsp : splitLines t with
      | nil => exact absurd hsp (splitLines_ne_nil t)
      | cons l ls =>
        rw [hsp] at ih
        simp only [splitLines, if_neg hc, hsp]
        cases ls with
        | nil =>
          simp only [joinLines] at ih ⊢
          rw [ih]
        | cons l2 ls2 =>
          rw [joinLines_cons (c :: l) (l2 :: ls2) (by simp), ← ih,
            joinLines_cons l (l2 :: ls2) (by simp)]
          simp

/-- A newline-free token occurring in the content occurs in one of its
lines. -/
theorem seg_content_line (tok s : JSStr) (h0 : tok ≠ []) (hn : '\n' ∉ tok)
    (h : tok <:+: s) : ∃ l ∈ splitLines s, tok <:+: l :=
  seg_joinLines tok h0 hn (splitLines s) (by rwa [joinLines_splitLines])

/-- Claim C10: the fast predicate of the Key-Line Extractor module is
sound for the Log Analyzer — whenever it reports errors, the analyzer's
`hasErrors` is true for every filename — while the converse fails (a
validation failure is seen by the analyzer but not by the fast
predicate). -/
theorem c10_fast_implies_analyzer :
    (∀ (c f : JSStr), LogParser.hasErrors c = true →
      (Mcp.analyzeLogContent f c).hasErrors = true) ∧
    ((Mcp.analyzeLogContent "f.log".data "VALIDATION_FAIL check".data).hasErrors = true ∧
      LogParser.hasErrors "VALIDATION_FAIL check".data = false) := by
  refine ⟨?_, by decide, by decide⟩
  intro c f h
  rw [LogParser.hasErrors, List.any_eq_true] at h
  obtain ⟨ind, hind, hc⟩ := h
  have hseg : ind <:+: c := (containsSeg_iff c ind).mp hc
  have hprops : ind ≠ [] ∧ '\n' ∉ ind := by
    have hall : ∀ t ∈ LogParser.errorIndicators, t ≠ [] ∧ '\n' ∉ t := by decide
    exact hall ind hind
  obtain ⟨l, hl, hlseg⟩ := seg_content_line ind c hprops.1 hprops.2 hseg
  have hcl : containsSeg l ind = true := (containsSeg_iff l ind).mpr hlseg
  have htrig : Mcp.isExceptionLine l = true ∨ Mcp.isFatalLine l = true ∨
      Mcp.isFlowLine l = true := by
    simp only [LogParser.errorIndicators, List.mem_cons, List.not_mem_nil, or_false] at hind
    rcases hind with rfl | rfl | rfl | rfl | rfl | rfl | rfl | rfl | rfl | rfl
    · exact Or.inl (by simp [Mcp.isExceptionLine, hcl])
    · exact Or.inr (Or.inl (by simp [Mcp.isFatalLine, hcl]))
    · exact Or.inl (by simp [Mcp.isExceptionLine, hcl])
    · exact Or.inr (Or.inr (by simp [Mcp.isFlowLine, hcl]))
    · exact Or.inr (Or.inr (by simp [Mcp.isFlowLine, hcl]))
    · exact Or.inr (Or.inr (by simp [Mcp.isFlowLine, hcl]))
    · have hsys : containsSeg l "System.".data = true :=
        containsSeg_of_seg l _ "System.".data hcl ((containsSeg_iff _ _).mp (by decide))
      exact Or.inr (Or.inl (by simp [Mcp.isFatalLine, hsys]))
    · have hsys : containsSeg l "System.".data = true :=
        containsSeg_of_seg l _ "System.".data hcl ((containsSeg_iff _ _).mp (by decide))
      exact Or.inr (Or.inl (by simp [Mcp.isFatalLine, hsys]))
    · have hsys : containsSeg l "System.".data = true :=
        containsSeg_of_seg l _ "System.".data hcl ((containsSeg_iff _ _).mp (by decide))
      exact Or.inr (Or.inl (by simp [Mcp.isFatalLine, hsys]))
    · have hsys : containsSeg l "System.".data = true :=
        containsSeg_of_seg l _ "System.".data hcl ((containsSeg_iff _ _).mp (by decide))
      exact Or.inr (Or.inl (by simp [Mcp.isFatalLine, hsys]))
  rcases htrig with hE | hF | hW
  · have hm : jsTrim l ∈ (Mcp.analyzeLogContent f c).exceptions := by
      rw [analyzeLogContent_exceptions]
      exact analyzeFold_exc_mem (splitLines c) (Mcp.initAnalysis f) l hl hE
    exact (analyzeLogContent_hasErrors_iff f c).mpr (Or.inl (List.ne_nil_of_mem hm))
  · have hm : jsTrim l ∈ (Mcp.analyzeLogContent f c).fatalErrors := by
      rw [analyzeLogContent_fatalErrors]
      exact analyzeFold_fatal_mem (splitLines c) (Mcp.initAnalysis f) l hl hF
    exact (analyzeLogContent_hasErrors_iff f c).mpr (Or.inr (Or.inl (List.ne_nil_of_mem hm)))
  · have hm : jsTrim l ∈ (Mcp.analyzeLogContent f c).flowErrors := by
      rw [analyzeLogContent_flowErrors]
      exact analyzeFold_flow_mem (splitLines c) (Mcp.initAnalysis f) l hl hW
    exact (analyzeLogContent_hasErrors_iff f c).mpr
      (Or.inr (Or.inr (Or.inr (Or.inl (List.ne_nil_of_mem hm)))))

/-- Witness for claim C10's theorem at a concrete input. -/
theorem c10_witness :
    (Mcp.analyzeLogContent "w.log".data "x System.DmlException y".data).hasErrors = true :=
  c10_fast_implies_analyzer.1 "x System.DmlException y".data "w.log".data (by decide)

/-- One rendered section per retained analysis. -/
theorem sectionsList_length :
    ∀ (as : List Mcp.LogAnalysis) (i : Nat), (Mcp.sectionsList i as).length = as.length := by
  intro as
  induction as with
  | nil => intro i; rfl
  | cons a rest ih => intro i; simp [Mcp.sectionsList, ih]

/-- Each rendered section opens with its one-based number. -/
theorem sectionsList_get :
    ∀ (as : List Mcp.LogAnalysis) (i k : Nat) (hk : k < (Mcp.sectionsList i as).length),
      ∃ r : JSStr, (Mcp.sectionsList i as).get ⟨k, hk⟩ =
        "## Log ".data ++ (toString (i + k + 1)).data ++ ": ".data ++ r := by
  intro as
  induction as with
  | nil => intro i k hk; simp [Mcp.sectionsList] at hk
  | cons a rest ih =>
    intro i k hk
    cases k with
    | zero =>
      refine ⟨?_, ?_⟩
      · exact a.filename ++ ("\n\n**Summary**: ".data ++ (a.summary ++ ("\n\n".data ++
          ((if a.exceptions.length > 0 then
            "### 🚨 Exceptions\n```\n".data ++ joinLines (a.exceptions.take 5) ++ "\n```\n\n".data
           else []) ++
          ((if a.fatalErrors.length > 0 then
            "### ❌ Fatal Errors\n```\n".data ++ joinLines (a.fatalErrors.take 5) ++ "\n```\n\n".data
           else []) ++
          ((if a.limitIssues.length > 0 then
            "### ⚠️ Limit Warnings\n```\n".data ++ joinLines (a.limitIssues.take 3) ++ "\n```\n\n".data
           else []) ++
          ((if a.flowErrors.length > 0 then
            "### 🌊 Flow Errors\n```\n".data ++ joinLines (a.flowErrors.take 3) ++ "\n```\n\n".data
           else []) ++
          ((if a.validationErrors.length > 0 then
            "### 📋 Validation Errors\n```\n".data ++ joinLines (a.validationErrors.take 5) ++ "\n```\n\n".data
           else []) ++
          ("### 💡 Next Steps\n- Review the full log: `.debugforce/logs/".data ++ (a.filename ++
          "`\n- Fix root causes in your Apex/Flow/validation code\n- Re-fetch logs after changes to verify fixes\n\n---\n\n".data))))))))))
      · show Mcp.renderSection i a = _
        simp [Mcp.renderSection, List.append_assoc]
    | succ k =>
      have hk' : k < (Mcp.sectionsList (i + 1) rest).length := by
        simpa [Mcp.sectionsList] using hk
      obtain ⟨r, hr⟩ := ih (i + 1) k hk'
      refine ⟨r, ?_⟩
      have hget : (Mcp.sectionsList i (a :: rest)).get ⟨k + 1, hk⟩ =
          (Mcp.sectionsList (i + 1) rest).get ⟨k, hk'⟩ := rfl
      rw [show i + 1 + k + 1 = i + (k + 1) + 1 from by omega] at hr
      rw [hget, hr]

/-- Claim C7: the aggregator returns the distinct no-files message on
empty input, the all-clean message citing exactly N on N clean logs, and
otherwise a header reporting totalLogsAnalyzed = N, logsWithErrors = M,
cleanLogs = N - M followed by exactly M numbered per-log sections. -/
theorem c7_aggregator_report :
    (Mcp.analyzeLogsReport [] = Mcp.noLogFilesMsg ∧
      ∀ n : Nat, Mcp.noLogFilesMsg ≠ Mcp.noErrorsMsg n) ∧
    (∀ logs : List (JSStr × JSStr), logs ≠ [] →
      (∀ p ∈ logs, (Mcp.analyzeLogContent p.1 p.2).hasErrors = false) →
      Mcp.analyzeLogsReport logs = Mcp.noErrorsMsg logs.length) ∧
    (∀ logs : List (JSStr × JSStr), 0 < (Mcp.analysesOf logs).length →
      (containsSeg (Mcp.analyzeLogsReport logs)
        ("**Total Logs Analyzed**: ".data ++ (toString logs.length).data ++ "\n".data) = true ∧
       containsSeg (Mcp.analyzeLogsReport logs)
        ("**Logs with Errors**: ".data ++
          (toString (Mcp.analysesOf logs).length).data ++ "\n".data) = true ∧
       containsSeg (Mcp.analyzeLogsReport logs)
        ("**Clean Logs**: ".data ++
          (toString (logs.length - (Mcp.analysesOf logs).length)).data ++ "\n".data) = true) ∧
      ∃ sections : List JSStr,
        sections.length = (Mcp.analysesOf logs).length ∧
        Mcp.analyzeLogsReport logs =
          Mcp.reportHeader logs.length (Mcp.analysesOf logs).length ++ sections.flatten ∧
        ∀ k (hk : k < sections.length), ∃ r : JSStr,
          sections.get ⟨k, hk⟩ =
            "## Log ".data ++ (toString (k + 1)).data ++ ": ".data ++ r) := by
  refine ⟨⟨rfl, ?_⟩, ?_, ?_⟩
  · -- the no-files message differs from every all-clean message
    intro n h
    have h1 : Mcp.noLogFilesMsg.head? = some '📂' := by decide
    have h2 : (Mcp.noErrorsMsg n).head? = some '✅' := by
      have hpre : (("✅ **No errors detected in any of the ".data : JSStr)).head? =
        some '✅' := by decide
      simp [Mcp.noErrorsMsg, List.head?_append, hpre]
    rw [h, h2] at h1
    exact absurd h1 (by decide)
  · -- all-clean input: the message cites the exact input count
    intro logs hne hclean
    have hlen : ¬(logs.length = 0) := by simpa [List.length_eq_zero] using hne
    have hfil : Mcp.analysesOf logs = [] := by
      unfold Mcp.analysesOf
      rw [List.filter_eq_nil_iff]
      intro a ha
      obtain ⟨p, hp, rfl⟩ := List.mem_map.mp ha
      simp [hclean p hp]
    simp only [Mcp.analyzeLogsReport]
    rw [if_neg hlen]
    simp [hfil]
  · -- error report: header counts and numbered sections
    intro logs hM
    have hne : Mcp.analysesOf logs ≠ [] := by
      intro h
      rw [h] at hM
      exact absurd hM (by simp)
    have hlogs : logs ≠ [] := by
      intro h
      subst h
      exact hne (by rfl)
    have hlen : ¬(logs.length = 0) := by simpa [List.length_eq_zero] using hlogs
    have hMne : ¬((Mcp.analysesOf logs).length = 0) := by
      simpa [List.length_eq_zero] using hne
    have hrep : Mcp.analyzeLogsReport logs =
        Mcp.reportHeader logs.length (Mcp.analysesOf logs).length ++
          (Mcp.sectionsList 0 (Mcp.analysesOf logs)).flatten := by
      simp only [Mcp.analyzeLogsReport]
      rw [if_neg hlen, if_neg hMne]
    refine ⟨⟨?_, ?_, ?_⟩, Mcp.sectionsList 0 (Mcp.analysesOf logs),
      sectionsList_length _ 0, hrep, ?_⟩
    · refine (containsSeg_iff _ _).mpr ⟨"# 🔍 Debugforce Log Analysis Report\n\n".data,
        ("**Logs with Errors**: ".data ++ (toString (Mcp.analysesOf logs).length).data ++
          "\n".data) ++
        ("**Clean Logs**: ".data ++
          (toString (logs.length - (Mcp.analysesOf logs).length)).data ++ "\n".data) ++
        "\n---\n\n".data ++ (Mcp.sectionsList 0 (Mcp.analysesOf logs)).flatten, ?_⟩
      rw [hrep]
      simp [Mcp.reportHeader, List.append_assoc]
    · refine (containsSeg_iff _ _).mpr ⟨"# 🔍 Debugforce Log Analysis Report\n\n".data ++
        ("**Total Logs Analyzed**: ".data ++ (toString logs.length).data ++ "\n".data),
        ("**Clean Logs**: ".data ++
          (toString (logs.length - (Mcp.analysesOf logs).length)).data ++ "\n".data) ++
        "\n---\n\n".data ++ (Mcp.sectionsList 0 (Mcp.analysesOf logs)).flatten, ?_⟩
      rw [hrep]
      simp [Mcp.reportHeader, List.append_assoc]
    · refine (containsSeg_iff _ _).mpr ⟨"# 🔍 Debugforce Log Analysis Report\n\n".data ++
        ("**Total Logs Analyzed**: ".data ++ (toString logs.length).data ++ "\n".data) ++
        ("**Logs with Errors**: ".data ++ (toString (Mcp.analysesOf logs).length).data ++
          "\n".data),
        "\n---\n\n".data ++ (Mcp.sectionsList 0 (Mcp.analysesOf logs)).flatten, ?_⟩
      rw [hrep]
      simp [Mcp.reportHeader, List.append_assoc]
    · intro k hk
      obtain ⟨r, hr⟩ := sectionsList_get (Mcp.analysesOf logs) 0 k hk
      exact ⟨r, by simpa using hr⟩

/-- Witness for claim C7's theorem at concrete inputs. -/
theorem c7_witness :
    Mcp.analyzeLogsReport [("a.log".data, "nothing here".data)] = Mcp.noErrorsMsg 1 ∧
    containsSeg
      (Mcp.analyzeLogsReport
        [("a.log".data, "EXCEPTION_THROWN boom".data), ("b.log".data, "fine".data)])
      ("**Total Logs Analyzed**: ".data ++ (toString (2 : Nat)).data ++ "\n".data) = true :=
  ⟨c7_aggregator_report.2.1 [("a.log".data, "nothing here".data)] (by simp) (by decide),
   (c7_aggregator_report.2.2
     [("a.log".data, "EXCEPTION_THROWN boom".data), ("b.log".data, "fine".data)]
     (by decide)).1.1⟩

end Debugforce
